import Mathlib

-- Batteries marks the `Rat` field operations `@[irreducible]`, which stops
-- `decide` from evaluating concrete rational arithmetic; restore the
-- default reducibility for this development so concrete instances compute.
attribute [local semireducible] Rat.add Rat.mul Rat.inv Rat.sub Rat.ofScientific

/-!
# Verification of the laplace-gnn-recommendation core algorithms

Shallow embedding of the algorithmic core of the repository:

* `src/run_link_prop.py` — the sparse coordinate-matrix helpers
  (`sparse_assign`) and the `LinkPropMulti` baseline scorer
  (`fit_for_score`, `get_preds_for_users`, `predict_k`).
* `src/data/dataset.py` — the per-example subgraph builder
  (`GraphDataset.__getitem__`) and its helpers
  (`only_items_with_count_one`, `get_negative_edges_random`,
  `remap_edges_to_start_from_zero`, `fetch_n_hop_neighbourhood`,
  `create_edges_from_target_indices`, `shuffle_and_cut`,
  `create_neighbouring_article_edges`).

Modelling conventions:

* Tensor values are rationals (`ℚ`): the Python code computes with floats,
  but every property verified here concerns order/identity of values, not
  rounding, so an exact ordered field is the faithful abstraction.
* A 2×E edge tensor is a `List (Nat × Nat)` of (user id, item id) columns.
* Randomness (`torch.randint`, `torch.randperm`, `random.sample`) is
  threaded as explicit oracle parameters; theorems assume exactly the
  postconditions the samplers guarantee (sizes/ranges of the draws).
* Python exceptions (`assert`, `ZeroDivisionError`, reductions over empty
  tensors) are modelled with `Except String`.
-/

/-! ## Sparse coordinate matrices (`run_link_prop.py`)

A `torch_sparse.SparseTensor` is a coordinate list with declared sizes.
Coordinates are `Int` because Python integers are signed and the code's
`assert` compares signed values.  Reading a coordinate follows dense
materialisation semantics: duplicate coordinates accumulate additively
(this is exactly what `coalesce("add")`-based code relies on). -/

structure SparseM where
  rows : Nat
  cols : Nat
  entries : List (Int × Int × ℚ)
deriving DecidableEq, Repr

/-- Dense read-out of a coordinate: the sum of all stored values at `(i, j)`.
Models `m[i, j].to_dense()` for the (coalesced) matrices the code builds. -/
def entryVal (m : SparseM) (i j : Int) : ℚ :=
  ((m.entries.filter (fun e => e.1 = i ∧ e.2.1 = j)).map (fun e => e.2.2)).sum

/-- One step of additive coalescing: add entry `e` into an accumulator list,
merging with an existing entry at the same coordinate if present. -/
def insertAdd (e : Int × Int × ℚ) : List (Int × Int × ℚ) → List (Int × Int × ℚ)
  | [] => [e]
  | f :: rest =>
    if f.1 = e.1 ∧ f.2.1 = e.2.1 then (f.1, f.2.1, f.2.2 + e.2.2) :: rest
    else f :: insertAdd e rest

/-- `coalesce("add")`: combine duplicate coordinates by summation. -/
def coalesceAdd (l : List (Int × Int × ℚ)) : List (Int × Int × ℚ) :=
  l.foldl (fun acc e => insertAdd e acc) []

/-- `sparse_assign(m, i, j, val)` from `src/run_link_prop.py:59-69`:
asserts `i < m.size(0) and j < m.size(1)` (note: no lower-bound check),
reads the previous dense value at `(i, j)`, appends the delta entry
`(i, j, val - prev)` and coalesces with `"add"`. -/
def sparse_assign (m : SparseM) (i j : Int) (val : ℚ) : Except String SparseM :=
  if i < (m.rows : Int) ∧ j < (m.cols : Int) then
    Except.ok
      { rows := m.rows, cols := m.cols,
        entries := coalesceAdd (m.entries ++ [(i, j, val - entryVal m i j)]) }
  else Except.error "can only assign to existing indices"

/-! ## LinkProp baseline scorer (`run_link_prop.py`)

Matrices are total functions `Nat → Nat → ℚ` together with explicit
dimensions; entries outside the declared range are simply never consulted.
The degree exponents `alpha, beta, gamma, delta` are modelled as integers:
the verified claims are independent of the particular exponent arithmetic,
and `ℚ` has no real-valued power.  The code's explicit `inf`-to-zero
correction after `degree ** (-exponent)` coincides with `ℚ`'s
`zpow` convention `0 ^ (-e) = 0` for `e > 0` (and `0 ^ (-0) = 1`, exactly
as `0.0 ** -0.0 = 1.0` in Python, which `isinf` leaves untouched). -/

abbrev Mat := Nat → Nat → ℚ

structure LinkPropParams where
  rounds : Nat
  k : Nat
  alpha : ℤ
  beta : ℤ
  gamma : ℤ
  delta : ℤ

/-- `M.sum(dim=1)`: user degrees (row sums over the declared columns). -/
def user_degrees (M : Mat) (numItems : Nat) (r : Nat) : ℚ :=
  ∑ c ∈ Finset.range numItems, M r c

/-- `M.sum(dim=0)`: item degrees (column sums over the declared rows). -/
def item_degrees (M : Mat) (numUsers : Nat) (c : Nat) : ℚ :=
  ∑ r ∈ Finset.range numUsers, M r c

/-- The two degree-reweighted matrices stored on the model by
`fit_for_score`. -/
structure LinkPropFit where
  M_alpha_beta : Mat
  M_gamma_delta : Mat

/-- `LinkPropMulti.fit_for_score` (`src/run_link_prop.py:221-258`): degree
vectors, exponentiation with inf-to-zero correction, and the two
reweighted matrices restricted to `M`'s coordinates
(`value = user_w[row] * item_w[col] * value`). -/
def fit_for_score (p : LinkPropParams) (M : Mat) (numUsers numItems : Nat) :
    LinkPropFit :=
  let user_alpha := fun r => user_degrees M numItems r ^ (-p.alpha)
  let item_beta := fun c => item_degrees M numUsers c ^ (-p.beta)
  let user_gamma := fun r => user_degrees M numItems r ^ (-p.gamma)
  let item_delta := fun c => item_degrees M numUsers c ^ (-p.delta)
  { M_alpha_beta := fun r c => user_alpha r * item_beta c * M r c,
    M_gamma_delta := fun r c => user_gamma r * item_delta c * M r c }

/-- `LinkPropMulti.get_preds_for_users` (`src/run_link_prop.py:271-272`):
`matmul(matmul(self.M_alpha_beta[start:end], M.t()), self.M_gamma_delta)`.
The middle factor `M` is **not** a parameter or attribute in the source: it
resolves to the module-level global matrix, embedded here as `globalM`.
Row `r` is relative to `start`. -/
def get_preds_for_users (fit : LinkPropFit) (globalM : Mat)
    (numUsers numItems : Nat) (start : Nat) (r c : Nat) : ℚ :=
  ∑ x ∈ Finset.range numUsers,
    (∑ j ∈ Finset.range numItems, fit.M_alpha_beta (start + r) j * globalM x j) *
      fit.M_gamma_delta x c

/-- Modelled from the spec: the score formula of §4.6,
`M_αβ[range] · Mᵗ · M_γδ`, with **all three** factors derived from the one
matrix passed to `fit_for_score` (refinement comparison target for the
code's `get_preds_for_users`). -/
def spec_preds_for_users (p : LinkPropParams) (M : Mat)
    (numUsers numItems : Nat) (start : Nat) (r c : Nat) : ℚ :=
  get_preds_for_users (fit_for_score p M numUsers numItems) M
    numUsers numItems start r c

/-- The suppressed, clamped prediction matrix of `predict_k`
(`src/run_link_prop.py:276-280`):
`(user_pred - (M[start:end].to_dense() == 1).float() * 100000).clamp(min=0)`. -/
def user_pred (fit : LinkPropFit) (globalM M : Mat) (numUsers numItems : Nat)
    (start : Nat) (r c : Nat) : ℚ :=
  max 0 (get_preds_for_users fit globalM numUsers numItems start r c -
    (if M (start + r) c = 1 then 100000 else 0))

/-- The total order `torch.topk` sorts row entries by: larger value first,
ties broken towards the smaller column index (the deterministic CPU
behaviour: `topk` returns equal values in ascending index order). -/
def topkRel (v : Nat → ℚ) (a b : Nat) : Prop :=
  v b < v a ∨ (v a = v b ∧ a ≤ b)

instance topkRelDecidable (v : Nat → ℚ) : DecidableRel (topkRel v) :=
  fun a b => inferInstanceAs (Decidable (_ ∨ _))

instance topkRelTotal (v : Nat → ℚ) : IsTotal Nat (topkRel v) where
  total a b := by
    rcases lt_trichotomy (v a) (v b) with h | h | h
    · exact Or.inr (Or.inl h)
    · rcases Nat.le_total a b with hab | hab
      · exact Or.inl (Or.inr ⟨h, hab⟩)
      · exact Or.inr (Or.inr ⟨h.symm, hab⟩)
    · exact Or.inl (Or.inl h)

instance topkRelTrans (v : Nat → ℚ) : IsTrans Nat (topkRel v) where
  trans a b c hab hbc := by
    rcases hab with h | ⟨he, hle⟩ <;> rcases hbc with h2 | ⟨he2, hle2⟩
    · exact Or.inl (h2.trans h)
    · exact Or.inl (he2 ▸ h)
    · exact Or.inl (he ▸ h2)
    · exact Or.inr ⟨he.trans he2, hle.trans hle2⟩

/-- `values.topk(k, dim=1)[1]` for one row: the first `k` column indices in
the `topkRel` order. -/
def topkIdx (v : Nat → ℚ) (n k : Nat) : List Nat :=
  ((List.range n).insertionSort (topkRel v)).take k

/-- `LinkPropMulti.predict_k` (`src/run_link_prop.py:274-281`) for row `r`
of the requested `[start, end)` block: densify the propagated scores,
subtract `100000` at observed (`== 1`) coordinates, clamp at `0`, and
return the top-`k` column indices. -/
def predict_k (fit : LinkPropFit) (globalM M : Mat) (numUsers numItems : Nat)
    (start k r : Nat) : List Nat :=
  topkIdx (fun c => user_pred fit globalM M numUsers numItems start r c)
    numItems k

/-! ## Dataset helpers (`src/data/dataset.py`)

`torch.unique(..., sorted=True)` returns the sorted deduplicated ids.  We
implement it by insertion into a strictly increasing list, which the kernel
can evaluate on concrete inputs. -/

/-- Insert `x` into a strictly increasing list, keeping it strictly
increasing (no duplicate is created). -/
def insertSortedU (x : Nat) : List Nat → List Nat
  | [] => [x]
  | y :: l =>
    if x < y then x :: y :: l
    else if x = y then y :: l
    else y :: insertSortedU x l

/-- `torch.unique(l, sorted=True)`: the sorted list of distinct elements. -/
def uniqueSorted (l : List Nat) : List Nat :=
  l.foldr insertSortedU []

/-- `only_items_with_count_one` (`src/data/dataset.py:185-187`):
`uniques, counts = input.unique(return_counts=True); uniques[counts == 1]`. -/
def only_items_with_count_one (l : List Nat) : List Nat :=
  (uniqueSorted l).filter (fun x => l.count x = 1)

/-- `torch.bucketize(x, boundaries)` (left mode) on a sorted boundary list:
the number of boundaries strictly below `x`, i.e. the insertion point. -/
def bucketize (x : Nat) (boundaries : List Nat) : Nat :=
  boundaries.countP (fun y => decide (y < x))

/-- `remap_edges_to_start_from_zero` (`src/data/dataset.py:233-241`):
bucketize each row of the edge tensor against its dimension's bucket. -/
def remap_edges_to_start_from_zero (edges : List (Nat × Nat))
    (buckets_1st_dim buckets_2nd_dim : List Nat) : List (Nat × Nat) :=
  edges.map (fun e => (bucketize e.1 buckets_1st_dim, bucketize e.2 buckets_2nd_dim))

/-- `create_edges_from_target_indices` (`src/data/dataset.py:244-255`):
pair the source user id with every target item id (the columns of the
`[2, num_nodes]` tensor). -/
def create_edges_from_target_indices (source_index : Nat)
    (target_indices : List Nat) : List (Nat × Nat) :=
  target_indices.map (fun x => (source_index, x))

/-- `t.max(all_edges, dim=1)[0][1]`: the maximum of the second (item) row.
Only consulted when the edge list is nonempty (the empty reduction raises),
in which case the `0` base of the fold is absorbed. -/
def edgesIdMax (all_edges : List (Nat × Nat)) : Nat :=
  (all_edges.map Prod.snd).foldl Nat.max 0

/-- `get_negative_edges_random` (`src/data/dataset.py:190-230`).

Randomness oracles: `randints` stands for the draw of
`t.randint(low=0, high=id_max, size=(num_negative_edges,))` (so a real call
provides `num_negative_edges` values, each `< id_max`), and `perm` for
`t.randperm(only_negative_edges.nelement())` (a permutation of the index
range).  Python failure points kept in source order: `t.max` over an empty
edge tensor raises, and `all_edges.shape[1] / num_negative_edges` raises
`ZeroDivisionError` when zero negatives are requested. -/
def get_negative_edges_random (randints perm : List Nat)
    (subgraph_edges_to_filter : List Nat) (all_edges : List (Nat × Nat))
    (num_negative_edges : Nat) (randomization : Bool) :
    Except String (List Nat) :=
  if all_edges.isEmpty then
    Except.error "max(): Expected reduction over a non-empty tensor"
  else
    let id_max := edgesIdMax all_edges
    if num_negative_edges = 0 then
      Except.error "ZeroDivisionError: division by zero"
    else if (all_edges.length : ℚ) / (num_negative_edges : ℚ) > 100 then
      if randomization then Except.ok randints
      else Except.ok [id_max]
    else
      let only_negative_edges := only_items_with_count_one
        (List.range (id_max + 1) ++ subgraph_edges_to_filter)
      if randomization then
        Except.ok ((perm.map (fun i => only_negative_edges.getD i 0)).take
          num_negative_edges)
      else Except.ok [id_max]

/-- `shuffle_and_cut` (`src/data/dataset.py:289-293`), with `random.sample`
abstracted as the oracle `samp`. -/
def shuffle_and_cut (samp : List Nat → Nat → List Nat) (array : List Nat)
    (n : Nat) : List Nat :=
  if n < array.length then samp array n else array

/-- `create_neighbouring_article_edges` (`src/data/dataset.py:296-304`). -/
def create_neighbouring_article_edges (user_id : Nat)
    (users : Nat → List Nat) : List Nat × List (Nat × Nat) :=
  (users user_id, create_edges_from_target_indices user_id (users user_id))

/-- The `for i in range(0, n)` loop body of `fetch_n_hop_neighbourhood`
(`src/data/dataset.py:258-286`).  `steps` counts the remaining iterations
and `i` the current hop index.  Python `set`s are modelled as duplicate-free
lists in iteration order: the union `explored | queue` appends the not yet
explored members, and next-hop candidate users are deduplicated and
filtered against the explored set before sampling. -/
def fetchHops (samp : List Nat → Nat → List Nat) (users articles : Nat → List Nat)
    (num_neighbors : Nat) :
    Nat → Nat → List Nat → List Nat → List (Nat × Nat) → List (Nat × Nat)
  | 0, _, _, _, accum_edges => accum_edges
  | steps + 1, i, users_queue, users_explored, accum_edges =>
    let nae := users_queue.map (fun u => create_neighbouring_article_edges u users)
    let explored2 := users_explored ++
      users_queue.filter (fun u => decide (u ∉ users_explored))
    if nae.isEmpty then accum_edges
    else
      let new_articles := (nae.map Prod.fst).flatten
      let accum2 := if i ≠ 0 then accum_edges ++ (nae.map Prod.snd).flatten
        else accum_edges
      let articles_queue := shuffle_and_cut samp new_articles num_neighbors
      let new_users := ((articles_queue.map articles).flatten.filter
        (fun u => decide (u ∉ explored2))).dedup
      let queue2 := shuffle_and_cut samp new_users num_neighbors
      fetchHops samp users articles num_neighbors steps (i + 1) queue2 explored2 accum2

/-- `fetch_n_hop_neighbourhood` (`src/data/dataset.py:258-286`): run the
hop loop from hop `0` with frontier `{user_id}`, no explored users and no
accumulated edges. -/
def fetch_n_hop_neighbourhood (samp : List Nat → Nat → List Nat) (n : Nat)
    (user_id : Nat) (users articles : Nat → List Nat) (num_neighbors : Nat) :
    List (Nat × Nat) :=
  fetchHops samp users articles num_neighbors n 0 [user_id] [] []

/-- `t.min(l, dim=0)[1]`: index of the first minimal element. -/
def minIndex (l : List Nat) : Nat :=
  l.indexOf (l.foldl Nat.min (l.headD 0))

/-- `t.max(l, dim=0)[1]`: index of the first maximal element. -/
def maxIndex (l : List Nat) : Nat :=
  l.indexOf (l.foldl Nat.max (l.headD 0))

/-! ## The per-example subgraph builder (`GraphDataset.__getitem__`) -/

/-- The configuration fields `__getitem__` consults. -/
structure Config where
  positive_edges_ratio : ℚ
  negative_edges_ratio : ℚ
  k : Nat
  n_hop_neighbors : Nat
  num_neighbors : Nat

/-- The dataset state (`GraphDataset.__init__`): the global edge tensor,
the two adjacency maps, the optional matchers (each one a
`get_matches : user id → item ids` capability), and the mode flags. -/
structure GraphDataset where
  all_edges : List (Nat × Nat)
  users : Nat → List Nat
  articles : Nat → List Nat
  matchers : Option (List (Nat → List Nat))
  config : Config
  train : Bool
  randomization : Bool

/-- The random draws one `__getitem__` call consumes.  `posDraw` stands for
`t.randint(0, len(positive_article_indices), (samp_cut,))` (a real call
provides in-range indices), `negRandints`/`negPerm` feed
`get_negative_edges_random`, and `nhopSamp` is `random.sample` for the
neighbourhood expansion. -/
structure Draws where
  posDraw : List Nat
  negRandints : List Nat
  negPerm : List Nat
  nhopSamp : List Nat → Nat → List Nat

/-- The parts of the emitted `HeteroData` example the verified claims
consult, together with the global-id intermediates (the Python locals of
`__getitem__`).  `user_feature_rows`/`article_feature_rows` are the row
counts of `x[user_buckets]`/`x[article_buckets]`: fancy indexing yields one
feature row per bucket entry. -/
structure ItemOut where
  positive_article_edges : List (Nat × Nat)
  sampled_positive_article_edges : List (Nat × Nat)
  sampled_negative_article_edges : List (Nat × Nat)
  n_hop_edges : List (Nat × Nat)
  user_buckets : List Nat
  article_buckets : List Nat
  user_feature_rows : Nat
  article_feature_rows : Nat
  edge_index : List (Nat × Nat)
  edge_label_index : List (Nat × Nat)
  edge_label : List Nat
  rev_edge_index : List (Nat × Nat)
  rev_edge_label_index : List (Nat × Nat)
  rev_edge_label : List Nat
deriving DecidableEq, Repr

/-- `GraphDataset.__getitem__` (`src/data/dataset.py:39-182`).

Followed line by line; the failure points are: an empty positive list makes
both `t.randint(high=0)` (random mode) and `t.min` over an empty tensor
(deterministic mode) raise; evaluation mode without matchers hits the
`assert`; training mode propagates `get_negative_edges_random`'s errors.
`int(x)` on the nonnegative ratios in play is `⌊x⌋` (`Rat.floor`). -/
def getitem (ds : GraphDataset) (draws : Draws) (idx : Nat) :
    Except String ItemOut :=
  let all_edges := ds.all_edges
  let positive_article_indices := ds.users idx
  let positive_article_edges :=
    create_edges_from_target_indices idx positive_article_indices
  let samp_cut := Nat.max 1 (Int.toNat (Rat.floor
    ((positive_article_indices.length : ℚ) * ds.config.positive_edges_ratio)))
  if positive_article_indices.length = 0 then
    Except.error "randint/min over an empty positive list"
  else
    let random_integers :=
      if ds.randomization then draws.posDraw.take samp_cut
      else [minIndex positive_article_indices, maxIndex positive_article_indices]
    let sampled_positive_article_indices :=
      random_integers.map (fun d => positive_article_indices.getD d 0)
    let sampled_positive_article_edges :=
      create_edges_from_target_indices idx sampled_positive_article_indices
    let num_sampled_pos_edges := sampled_positive_article_indices.length
    let negative_edges_ratio : ℚ :=
      if num_sampled_pos_edges ≤ 1 then ((ds.config.k : ℚ) - 1)
      else ds.config.negative_edges_ratio
    let negSrc : Except String (List Nat) :=
      if ds.train then
        get_negative_edges_random draws.negRandints draws.negPerm
          sampled_positive_article_indices all_edges
          (Int.toNat (Rat.floor (negative_edges_ratio * (num_sampled_pos_edges : ℚ))))
          ds.randomization
      else
        match ds.matchers with
        | none => Except.error "Must provide matchers for test"
        | some ms =>
          let candidates := uniqueSorted ((ms.map (fun m => m idx)).flatten)
          Except.ok (only_items_with_count_one
            (candidates ++ positive_article_indices))
    match negSrc with
    | Except.error e => Except.error e
    | Except.ok negs =>
      let sampled_negative_article_edges :=
        create_edges_from_target_indices idx negs
      let n_hop_edges := fetch_n_hop_neighbourhood draws.nhopSamp
        ds.config.n_hop_neighbors idx ds.users ds.articles ds.config.num_neighbors
      let all_touched_edges :=
        positive_article_edges ++ sampled_negative_article_edges ++ n_hop_edges
      let all_subgraph_edges := positive_article_edges ++ n_hop_edges
      let user_buckets := uniqueSorted (all_touched_edges.map Prod.fst)
      let article_buckets := uniqueSorted (all_touched_edges.map Prod.snd)
      let sub_remapped := remap_edges_to_start_from_zero all_subgraph_edges
        user_buckets article_buckets
      let sampled_remapped := remap_edges_to_start_from_zero
        (sampled_positive_article_edges ++ sampled_negative_article_edges)
        user_buckets article_buckets
      let labels := List.replicate sampled_positive_article_edges.length 1 ++
        List.replicate sampled_negative_article_edges.length 0
      Except.ok
        { positive_article_edges := positive_article_edges,
          sampled_positive_article_edges := sampled_positive_article_edges,
          sampled_negative_article_edges := sampled_negative_article_edges,
          n_hop_edges := n_hop_edges,
          user_buckets := user_buckets,
          article_buckets := article_buckets,
          user_feature_rows := user_buckets.length,
          article_feature_rows := article_buckets.length,
          edge_index := sub_remapped,
          edge_label_index := sampled_remapped,
          edge_label := labels,
          rev_edge_index := sub_remapped.map Prod.swap,
          rev_edge_label_index := sampled_remapped.map Prod.swap,
          rev_edge_label := labels }

/-! ## Concrete instances used by counterexamples and witnesses -/

/-- The dense value a coordinate list contributes at `(i, j)`. -/
def entrySum (l : List (Int × Int × ℚ)) (i j : Int) : ℚ :=
  ((l.filter (fun e => e.1 = i ∧ e.2.1 = j)).map (fun e => e.2.2)).sum

/-- LinkProp parameters with all degree exponents zero (so every degree
weight is `1`, including for degree-0 entities, as in Python where
`d ** -0.0 = 1.0`). -/
def p0 : LinkPropParams := ⟨1, 1, 0, 0, 0, 0⟩

/-- The 2×2 interaction matrix `[[1, 0], [0, 0]]`. -/
def Mc1 : Mat := fun r c => if r = 0 ∧ c = 0 then 1 else 0

/-- The 2×2 interaction matrix `[[1, 0], [1, 1]]`. -/
def Mw1 : Mat := fun r c => if r = 0 ∧ c = 1 then 0 else 1

/-- The 1×1 matrix `[[1]]` (a fitted matrix for the C2 scenario). -/
def Ac2 : Mat := fun _ _ => 1

/-- The 1×1 matrix `[[2]]` (the module-global matrix in the C2 scenario). -/
def Gc2 : Mat := fun _ _ => 2

/-- Evaluation-mode dataset whose single matcher proposes item `5` while
user `0`'s positive list is `[7]` (so the positive is not a candidate). -/
def dsC3 : GraphDataset :=
  { all_edges := [(0, 7)]
    users := fun u => if u = 0 then [7] else []
    articles := fun _ => []
    matchers := some [fun _ => [5]]
    config := { positive_edges_ratio := 1, negative_edges_ratio := 1, k := 12, n_hop_neighbors := 0, num_neighbors := 0 }
    train := false
    randomization := false }

/-- Trivial draws (deterministic mode consumes none of them). -/
def draws0 : Draws :=
  { posDraw := [], negRandints := [], negPerm := [], nhopSamp := fun l _ => l }

/-- The candidate set the matchers of `dsC3` supply for user `0`. -/
def candC3 : List Nat :=
  uniqueSorted (((dsC3.matchers.getD []).map (fun m => m 0)).flatten)

/-- Training-mode dataset for the C10 witness: user `0` bought item `3`. -/
def dsW : GraphDataset :=
  { all_edges := [(0, 3)]
    users := fun u => if u = 0 then [3] else []
    articles := fun _ => []
    matchers := none
    config := { positive_edges_ratio := 1, negative_edges_ratio := 1, k := 12, n_hop_neighbors := 0, num_neighbors := 0 }
    train := true
    randomization := false }

/-- The example `getitem dsW draws0 0` emits (extracted for the witness). -/
def outW : ItemOut :=
  (getitem dsW draws0 0).toOption.getD
    ⟨[], [], [], [], [], [], 0, 0, [], [], [], [], [], []⟩

/-- Evaluation-mode dataset whose matcher candidates `[5, 7]` contain the
positive list `[7]` of user `0` (the well-behaved C3 scenario). -/
def dsE : GraphDataset :=
  { all_edges := [(0, 7)]
    users := fun u => if u = 0 then [7] else []
    articles := fun _ => []
    matchers := some [fun _ => [5, 7]]
    config := { positive_edges_ratio := 1, negative_edges_ratio := 1, k := 12, n_hop_neighbors := 0, num_neighbors := 0 }
    train := false
    randomization := false }

/-- The example `getitem dsE draws0 0` emits (extracted for the witness). -/
def outE : ItemOut :=
  (getitem dsE draws0 0).toOption.getD
    ⟨[], [], [], [], [], [], 0, 0, [], [], [], [], [], []⟩

/-! ## Helper lemmas: additive coalescing preserves dense read-out -/

theorem entryVal_eq_entrySum (m : SparseM) (i j : Int) :
    entryVal m i j = entrySum m.entries i j := rfl

theorem entrySum_append (l1 l2 : List (Int × Int × ℚ)) (i j : Int) :
    entrySum (l1 ++ l2) i j = entrySum l1 i j + entrySum l2 i j := by
  simp [entrySum, List.filter_append]

theorem entrySum_cons (f : Int × Int × ℚ) (l : List (Int × Int × ℚ))
    (i j : Int) :
    entrySum (f :: l) i j =
      (if f.1 = i ∧ f.2.1 = j then f.2.2 else 0) + entrySum l i j := by
  by_cases h : f.1 = i ∧ f.2.1 = j <;> simp [entrySum, h]

theorem entrySum_insertAdd (e : Int × Int × ℚ) (l : List (Int × Int × ℚ))
    (i j : Int) :
    entrySum (insertAdd e l) i j = entrySum (e :: l) i j := by
  induction l with
  | nil => rfl
  | cons f rest ih =>
    rw [insertAdd]
    by_cases hm : f.1 = e.1 ∧ f.2.1 = e.2.1
    · rw [if_pos hm, entrySum_cons, entrySum_cons, entrySum_cons]
      dsimp only
      by_cases hf : f.1 = i ∧ f.2.1 = j
      · have he : e.1 = i ∧ e.2.1 = j :=
          ⟨hm.1.symm.trans hf.1, hm.2.symm.trans hf.2⟩
        rw [if_pos hf, if_pos hf, if_pos he]
        ring
      · have he : ¬(e.1 = i ∧ e.2.1 = j) := by
          intro he
          exact hf ⟨hm.1.trans he.1, hm.2.trans he.2⟩
        rw [if_neg hf, if_neg hf, if_neg he]
        ring
    · rw [if_neg hm, entrySum_cons, ih, entrySum_cons, entrySum_cons,
        entrySum_cons]
      ring

theorem entrySum_coalesce_aux (l : List (Int × Int × ℚ)) :
    ∀ (acc : List (Int × Int × ℚ)) (i j : Int),
      entrySum (l.foldl (fun acc2 e => insertAdd e acc2) acc) i j =
        entrySum acc i j + entrySum l i j := by
  induction l with
  | nil => intro acc i j; simp [entrySum]
  | cons e rest ih =>
    intro acc i j
    rw [List.foldl_cons, ih, entrySum_insertAdd, entrySum_cons, entrySum_cons]
    ring

theorem entrySum_coalesceAdd (l : List (Int × Int × ℚ)) (i j : Int) :
    entrySum (coalesceAdd l) i j = entrySum l i j := by
  have h := entrySum_coalesce_aux l [] i j
  simpa [coalesceAdd, entrySum] using h

/-- C6: for every sparse matrix `M` and in-bounds coordinate `(i, j)`,
`sparse_assign(M, i, j, v)` succeeds, reading `(i, j)` from the result
yields exactly `v`, and every other coordinate keeps its value from `M`. -/
theorem sparse_assign_read_back (m : SparseM) (i j : Int) (v : ℚ)
    (hi0 : 0 ≤ i) (hi : i < (m.rows : Int))
    (hj0 : 0 ≤ j) (hj : j < (m.cols : Int)) :
    ∃ m2, sparse_assign m i j v = Except.ok m2 ∧ entryVal m2 i j = v ∧
      ∀ i2 j2, ¬(i2 = i ∧ j2 = j) → entryVal m2 i2 j2 = entryVal m i2 j2 := by
  refine ⟨_, by rw [sparse_assign, if_pos ⟨hi, hj⟩], ?_, ?_⟩
  · show entrySum (coalesceAdd (m.entries ++ [(i, j, v - entryVal m i j)])) i j = v
    rw [entrySum_coalesceAdd, entrySum_append, ← entryVal_eq_entrySum]
    simp [entrySum]
  · intro i2 j2 hne
    show entrySum (coalesceAdd (m.entries ++ [(i, j, v - entryVal m i j)])) i2 j2 =
      entryVal m i2 j2
    rw [entrySum_coalesceAdd, entrySum_append, ← entryVal_eq_entrySum]
    have : ¬(i = i2 ∧ j = j2) := fun hcon => hne ⟨hcon.1.symm, hcon.2.symm⟩
    simp [entrySum, this]

/-- Witness for C6 at a concrete matrix and coordinate. -/
theorem sparse_assign_read_back_witness :
    (0 : Int) ≤ 0 ∧
      (∃ m2, sparse_assign ⟨2, 2, [(0, 0, 3)]⟩ 0 1 5 = Except.ok m2 ∧
        entryVal m2 0 1 = 5 ∧
        ∀ i2 j2, ¬(i2 = 0 ∧ j2 = 1) →
          entryVal m2 i2 j2 = entryVal ⟨2, 2, [(0, 0, 3)]⟩ i2 j2) :=
  ⟨by decide,
    sparse_assign_read_back ⟨2, 2, [(0, 0, 3)]⟩ 0 1 5 (by decide) (by decide)
      (by decide) (by decide)⟩

/-- C7 counterexample: the coordinate `(-1, 0)` is outside the declared
bounds of a `1×1` matrix (negative row), yet `sparse_assign` does not fail:
the `assert` checks only the upper bounds. -/
theorem sparse_assign_negative_index_not_caught :
    (sparse_assign ⟨1, 1, []⟩ (-1) 0 5).isOk = true ∧ ¬(0 ≤ (-1 : Int)) := by
  decide

/-- C7 amended: `sparse_assign` fails with the `OutOfBounds` error iff `i`
is at least the declared row count or `j` at least the declared column
count; negative coordinates are not rejected. -/
theorem sparse_assign_error_iff (m : SparseM) (i j : Int) (v : ℚ) :
    sparse_assign m i j v = Except.error "can only assign to existing indices"
      ↔ ((m.rows : Int) ≤ i ∨ (m.cols : Int) ≤ j) := by
  by_cases h : i < (m.rows : Int) ∧ j < (m.cols : Int)
  · rw [sparse_assign, if_pos h]
    constructor
    · intro hcon
      exact Except.noConfusion hcon
    · intro hcon
      rcases hcon with hr | hc
      · exact absurd h.1 (not_lt.mpr hr)
      · exact absurd h.2 (not_lt.mpr hc)
  · rw [sparse_assign, if_neg h]
    constructor
    · intro _
      omega
    · intro _
      rfl

/-! ## Helper lemmas: sorted unique buckets and bucketize ranks -/

theorem mem_insertSortedU {x a : Nat} :
    ∀ {l : List Nat}, a ∈ insertSortedU x l ↔ (a = x ∨ a ∈ l) := by
  intro l
  induction l with
  | nil => simp [insertSortedU]
  | cons y t ih =>
    rw [insertSortedU]
    by_cases h1 : x < y
    · simp [h1]
    · by_cases h2 : x = y
      · subst h2
        rw [if_neg h1, if_pos rfl]
        constructor
        · intro h
          exact Or.inr h
        · intro h
          rcases h with rfl | h
          · exact List.mem_cons_self a t
          · exact h
      · simp only [h1, if_false, h2, List.mem_cons, ih]
        tauto

theorem pairwise_insertSortedU {x : Nat} :
    ∀ {l : List Nat}, l.Pairwise (· < ·) → (insertSortedU x l).Pairwise (· < ·) := by
  intro l
  induction l with
  | nil => intro _; simp [insertSortedU]
  | cons y t ih =>
    intro hp
    rw [List.pairwise_cons] at hp
    rw [insertSortedU]
    by_cases h1 : x < y
    · rw [if_pos h1, List.pairwise_cons]
      refine ⟨?_, List.pairwise_cons.mpr hp⟩
      intro z hz
      rcases List.mem_cons.mp hz with h | h
      · exact h ▸ h1
      · exact h1.trans (hp.1 z h)
    · by_cases h2 : x = y
      · rw [if_neg h1, if_pos h2]
        exact List.pairwise_cons.mpr hp
      · rw [if_neg h1, if_neg h2, List.pairwise_cons]
        have hyx : y < x := by omega
        refine ⟨?_, ih hp.2⟩
        intro z hz
        rcases mem_insertSortedU.mp hz with h | h
        · exact h ▸ hyx
        · exact hp.1 z h

theorem mem_uniqueSorted {a : Nat} : ∀ {l : List Nat}, a ∈ uniqueSorted l ↔ a ∈ l := by
  intro l
  induction l with
  | nil => simp [uniqueSorted]
  | cons b t ih =>
    show a ∈ insertSortedU b (uniqueSorted t) ↔ _
    rw [mem_insertSortedU, ih, List.mem_cons]

theorem uniqueSorted_pairwise (l : List Nat) :
    (uniqueSorted l).Pairwise (· < ·) := by
  induction l with
  | nil => simp [uniqueSorted]
  | cons b t ih => exact pairwise_insertSortedU ih

/-- On a strictly increasing list containing `x`, counting the elements
below `x` gives both the index of `x` and a valid position whose entry is
`x` (i.e. `bucketize` computes the 0-based rank and inverts via lookup). -/
theorem sorted_rank {l : List Nat} (hp : l.Pairwise (· < ·)) {x : Nat}
    (hx : x ∈ l) :
    l.countP (fun y => decide (y < x)) = l.indexOf x ∧
      l.getD (l.countP (fun y => decide (y < x))) 0 = x := by
  induction l with
  | nil => cases hx
  | cons h t ih =>
    rw [List.pairwise_cons] at hp
    rcases List.mem_cons.mp hx with hxh | hxt
    · subst hxh
      have hz : t.countP (fun y => decide (y < x)) = 0 := by
        apply List.countP_eq_zero.mpr
        intro a ha
        have := hp.1 a ha
        simp only [decide_eq_true_eq]
        omega
      have hcount : (x :: t).countP (fun y => decide (y < x)) = 0 := by
        rw [List.countP_cons]
        simp [hz]
      rw [hcount]
      exact ⟨(List.indexOf_cons_self x t).symm, rfl⟩
    · have hlt : h < x := hp.1 x hxt
      have hne : x ≠ h := fun hcon => absurd (hcon ▸ hlt) (lt_irrefl x)
      have hcount : (h :: t).countP (fun y => decide (y < x)) =
          t.countP (fun y => decide (y < x)) + 1 := by
        rw [List.countP_cons]
        simp [hlt]
      have := ih hp.2 hxt
      rw [hcount, List.indexOf_cons_ne t hne.symm, List.getD_cons_succ]
      exact ⟨by rw [this.1], this.2⟩

/-- Membership in the source list puts the bucketized rank strictly below
the bucket length. -/
theorem bucketize_lt_of_mem {x : Nat} {l : List Nat} (hx : x ∈ l) :
    bucketize x (uniqueSorted l) < (uniqueSorted l).length := by
  have hmem : x ∈ uniqueSorted l := mem_uniqueSorted.mpr hx
  have h := (sorted_rank (uniqueSorted_pairwise l) hmem).1
  rw [bucketize, h]
  exact List.indexOf_lt_length.mpr hmem

/-- C8: with buckets computed as the sorted unique ids of the two edge
rows, `remap_edges_to_start_from_zero` replaces every global id by its
0-based rank in its dimension's bucket, and indexing the buckets at the
remapped values recovers the original edge tensor. -/
theorem remap_rank_and_round_trip (edges : List (Nat × Nat)) :
    remap_edges_to_start_from_zero edges
        (uniqueSorted (edges.map Prod.fst)) (uniqueSorted (edges.map Prod.snd)) =
      edges.map (fun e => ((uniqueSorted (edges.map Prod.fst)).indexOf e.1,
        (uniqueSorted (edges.map Prod.snd)).indexOf e.2)) ∧
    (remap_edges_to_start_from_zero edges
        (uniqueSorted (edges.map Prod.fst)) (uniqueSorted (edges.map Prod.snd))).map
        (fun e => ((uniqueSorted (edges.map Prod.fst)).getD e.1 0,
          (uniqueSorted (edges.map Prod.snd)).getD e.2 0)) = edges := by
  have hfst : ∀ e ∈ edges, e.1 ∈ uniqueSorted (edges.map Prod.fst) := by
    intro e he
    exact mem_uniqueSorted.mpr (List.mem_map_of_mem Prod.fst he)
  have hsnd : ∀ e ∈ edges, e.2 ∈ uniqueSorted (edges.map Prod.snd) := by
    intro e he
    exact mem_uniqueSorted.mpr (List.mem_map_of_mem Prod.snd he)
  constructor
  · apply List.map_congr_left
    intro e he
    have h1 := sorted_rank (uniqueSorted_pairwise (edges.map Prod.fst)) (hfst e he)
    have h2 := sorted_rank (uniqueSorted_pairwise (edges.map Prod.snd)) (hsnd e he)
    rw [Prod.mk.injEq]
    exact ⟨h1.1, h2.1⟩
  · rw [remap_edges_to_start_from_zero, List.map_map]
    conv_rhs => rw [← List.map_id edges]
    apply List.map_congr_left
    intro e he
    have h1 := sorted_rank (uniqueSorted_pairwise (edges.map Prod.fst)) (hfst e he)
    have h2 := sorted_rank (uniqueSorted_pairwise (edges.map Prod.snd)) (hsnd e he)
    show ((uniqueSorted (edges.map Prod.fst)).getD (bucketize e.1 _) 0,
      (uniqueSorted (edges.map Prod.snd)).getD (bucketize e.2 _) 0) = e
    rw [bucketize, bucketize, h1.2, h2.2]

/-! ## C9: low hop counts produce no accumulated edges -/

/-- C9: `fetch_n_hop_neighbourhood` returns an empty edge tensor for
`n_hops = 0`, and also for `n_hops = 1` whenever the fan-out is at least
every adjacency-list length (hop-0 edges are excluded by design; in fact
the hop-1 result is empty for every fan-out and sampler). -/
theorem fetch_n_hop_low_hops_empty (samp : List Nat → Nat → List Nat)
    (users articles : Nat → List Nat) (user_id num_neighbors : Nat)
    (hfanU : ∀ u, (users u).length ≤ num_neighbors)
    (hfanA : ∀ a2, (articles a2).length ≤ num_neighbors) :
    fetch_n_hop_neighbourhood samp 0 user_id users articles num_neighbors = [] ∧
    fetch_n_hop_neighbourhood samp 1 user_id users articles num_neighbors = [] := by
  constructor
  · rfl
  · rfl

/-- Witness for C9 on a concrete (empty-adjacency) graph. -/
theorem fetch_n_hop_low_hops_empty_witness :
    fetch_n_hop_neighbourhood (fun l _ => l) 0 0 (fun _ => []) (fun _ => []) 0 = [] ∧
    fetch_n_hop_neighbourhood (fun l _ => l) 1 0 (fun _ => []) (fun _ => []) 0 = [] :=
  fetch_n_hop_low_hops_empty (fun l _ => l) (fun _ => []) (fun _ => []) 0 0
    (fun _ => Nat.le_refl 0) (fun _ => Nat.le_refl 0)

/-! ## Helper lemmas: top-k selection -/

/-- The insertion sort used by `topkIdx` lists values in non-increasing
order. -/
theorem insertionSort_desc (v : Nat → ℚ) (l : List Nat) :
    (l.insertionSort (topkRel v)).Pairwise (fun a b => v b ≤ v a) := by
  have h := List.sorted_insertionSort (topkRel v) l
  exact h.imp (fun hab => by
    rcases hab with h2 | ⟨h2, _⟩
    · exact le_of_lt h2
    · exact le_of_eq h2.symm)

/-- In a list sorted by non-increasing value, if at least `k` entries have
strictly positive value then every entry of the `k`-prefix has strictly
positive value. -/
theorem take_pos_of_sorted (v : Nat → ℚ) :
    ∀ (S : List Nat) (k : Nat), S.Pairwise (fun a b => v b ≤ v a) →
      k ≤ S.countP (fun c => decide (0 < v c)) → ∀ x ∈ S.take k, 0 < v x := by
  intro S
  induction S with
  | nil =>
    intro k _ _ x hx
    simp at hx
  | cons s rest ih =>
    intro k hp hk x hx
    rw [List.pairwise_cons] at hp
    cases k with
    | zero => simp at hx
    | succ k2 =>
      have hs : 0 < v s := by
        by_contra hns
        push_neg at hns
        have hzero : (s :: rest).countP (fun c => decide (0 < v c)) = 0 := by
          apply List.countP_eq_zero.mpr
          intro a ha
          simp only [decide_eq_true_eq, not_lt]
          rcases List.mem_cons.mp ha with rfl | har
          · exact hns
          · exact (hp.1 a har).trans hns
        omega
      rw [List.take_succ_cons] at hx
      rcases List.mem_cons.mp hx with rfl | hx2
      · exact hs
      · refine ih k2 hp.2 ?_ x hx2
        have hcons : (s :: rest).countP (fun c => decide (0 < v c)) =
            rest.countP (fun c => decide (0 < v c)) + 1 := by
          rw [List.countP_cons]
          simp [hs]
        omega

/-- Entries of `topkIdx v n k` have strictly positive value and lie below
`n`, provided at least `k` of the `n` candidate values are strictly
positive. -/
theorem topkIdx_pos (v : Nat → ℚ) (n k : Nat)
    (hk : k ≤ (List.range n).countP (fun c => decide (0 < v c))) :
    ∀ jj ∈ topkIdx v n k, 0 < v jj ∧ jj < n := by
  intro jj hjj
  have hperm : ((List.range n).insertionSort (topkRel v)).Perm (List.range n) :=
    List.perm_insertionSort _ _
  have hcount : k ≤ ((List.range n).insertionSort (topkRel v)).countP
      (fun c => decide (0 < v c)) := by
    rw [hperm.countP_eq]
    exact hk
  refine ⟨take_pos_of_sorted v _ k (insertionSort_desc v _) hcount jj hjj, ?_⟩
  exact List.mem_range.mp (hperm.mem_iff.mp (List.mem_of_mem_take hjj))

/-- C1 (amended): whenever every propagated score of the row is at most the
suppression constant `100000` and at least `k` unsuppressed (unobserved)
columns have strictly positive clamped score, the top-`k` indices of
`predict_k` contain no observed (`== 1`) column.  (The original claim —
"unless row i has fewer than k unsuppressed entries" — fails: after
`clamp(min=0)` a suppressed column ties at `0` with any unsuppressed column
of zero score and can win the tie.) -/
theorem predict_k_excludes_observed (p : LinkPropParams) (globalM M : Mat)
    (numUsers numItems start k r : Nat)
    (hbound : ∀ c < numItems,
      get_preds_for_users (fit_for_score p M numUsers numItems) globalM
        numUsers numItems start r c ≤ 100000)
    (hk : k ≤ (List.range numItems).countP (fun c =>
      decide (M (start + r) c ≠ 1 ∧ 0 < user_pred
        (fit_for_score p M numUsers numItems) globalM M numUsers numItems
        start r c))) :
    ∀ jj ∈ predict_k (fit_for_score p M numUsers numItems) globalM M
      numUsers numItems start k r, M (start + r) jj ≠ 1 := by
  intro jj hjj
  have hcount : k ≤ (List.range numItems).countP (fun c =>
      decide (0 < user_pred (fit_for_score p M numUsers numItems) globalM M
        numUsers numItems start r c)) := by
    refine le_trans hk (List.countP_mono_left ?_)
    intro x hx hpx
    simp only [decide_eq_true_eq] at hpx ⊢
    exact hpx.2
  have h := topkIdx_pos (fun c => user_pred (fit_for_score p M numUsers numItems)
    globalM M numUsers numItems start r c) numItems k hcount jj hjj
  intro hobs
  have hzero : user_pred (fit_for_score p M numUsers numItems) globalM M
      numUsers numItems start r jj = 0 := by
    have hb := hbound jj h.2
    simp only [user_pred, hobs, if_pos]
    apply max_eq_left
    linarith
  have hpos : (0 : ℚ) < user_pred (fit_for_score p M numUsers numItems)
      globalM M numUsers numItems start r jj := h.1
  rw [hzero] at hpos
  exact lt_irrefl 0 hpos

/-- C1 counterexample: fit the 2×2 matrix `[[1, 0], [0, 0]]` (global matrix
equal to the fitted one, all exponents zero) and ask for the top 1 of row 0.
Column 1 is unsuppressed (so the row does *not* have fewer than `k = 1`
unsuppressed entries), yet the returned column is the observed column 0:
its clamped suppressed score `0` ties with column 1's zero score and the
tie breaks towards the lower index. -/
theorem predict_k_returns_observed_column :
    predict_k (fit_for_score p0 Mc1 2 2) Mc1 Mc1 2 2 0 1 0 = [0] ∧
    Mc1 (0 + 0) 0 = 1 ∧
    (List.range 2).countP (fun c => decide (Mc1 (0 + 0) c ≠ 1)) = 1 := by
  decide

/-- Witness for the amended C1 on `[[1, 0], [1, 1]]`: column 1 of row 0 has
positive score, so the top-1 pick is unobserved. -/
theorem predict_k_excludes_observed_witness : Mw1 (0 + 0) 1 ≠ 1 :=
  predict_k_excludes_observed p0 Mw1 Mw1 2 2 0 1 0 (by decide) (by decide) 1
    (by decide)

/-- C2 (code-bug evaluation): fitting on the 1×1 matrix `[[1]]` while the
module-global matrix is `[[2]]`, the code's `get_preds_for_users` produces
`2` — it multiplies by the transpose of the module-global matrix — whereas
the spec's formula (all three factors from the fitted matrix) gives `1`. -/
theorem get_preds_for_users_uses_global_matrix :
    get_preds_for_users (fit_for_score p0 Ac2 1 1) Gc2 1 1 0 0 0 = 2 ∧
    spec_preds_for_users p0 Ac2 1 1 0 0 0 = 1 ∧
    get_preds_for_users (fit_for_score p0 Ac2 1 1) Gc2 1 1 0 0 0 ≠
      spec_preds_for_users p0 Ac2 1 1 0 0 0 := by
  refine ⟨by decide, by decide, ?_⟩
  intro h
  rw [show spec_preds_for_users p0 Ac2 1 1 0 0 0 = 1 by decide] at h
  rw [show get_preds_for_users (fit_for_score p0 Ac2 1 1) Gc2 1 1 0 0 0 = 2
    by decide] at h
  exact absurd h (by norm_num)

/-! ## Helper lemmas: the "appears exactly once after union" trick -/

/-- If every member of `pos` also occurs in `cand`, then every id that
appears exactly once in `cand ++ pos` is a member of `cand` and not of
`pos` (this is the sense in which `only_items_with_count_one` excludes
positives). -/
theorem mem_only_count_one_append {cand pos : List Nat}
    (hsub : ∀ x ∈ pos, x ∈ cand) :
    ∀ x ∈ only_items_with_count_one (cand ++ pos), x ∈ cand ∧ x ∉ pos := by
  intro x hx
  rw [only_items_with_count_one, List.mem_filter] at hx
  obtain ⟨hmem, hcnt⟩ := hx
  rw [decide_eq_true_eq, List.count_append] at hcnt
  by_cases hp : x ∈ pos
  · exfalso
    have h1 : 0 < pos.count x := List.count_pos_iff_mem.mpr hp
    have h2 : 0 < cand.count x := List.count_pos_iff_mem.mpr (hsub x hp)
    omega
  · have hz : pos.count x = 0 := List.count_eq_zero.mpr hp
    refine ⟨List.count_pos_iff_mem.mp ?_, hp⟩
    omega

/-- C4 (amended): in the exact (low-density) branch with randomization
enabled, provided every supplied positive id is at most the maximum item id
of the edge tensor (always true for the ids `__getitem__` passes) and the
permutation draw indexes the complement list, every returned negative id is
absent from the positive set — even when the positive set has duplicates. -/
theorem neg_random_exact_branch_disjoint (randints perm pos : List Nat)
    (ae : List (Nat × Nat)) (num : Nat) (res : List Nat)
    (hbr : ¬ (((ae.length : ℚ) / (num : ℚ)) > 100))
    (hperm : ∀ t2 ∈ perm, t2 < (only_items_with_count_one
      (List.range (edgesIdMax ae + 1) ++ pos)).length)
    (hpos : ∀ x ∈ pos, x ≤ edgesIdMax ae)
    (hres : get_negative_edges_random randints perm pos ae num true =
      Except.ok res) :
    ∀ x ∈ res, x ∉ pos := by
  simp only [get_negative_edges_random] at hres
  by_cases hemp : ae.isEmpty
  · rw [if_pos hemp] at hres
    exact Except.noConfusion hres
  · rw [if_neg hemp] at hres
    by_cases hnum : num = 0
    · rw [if_pos hnum] at hres
      exact Except.noConfusion hres
    · rw [if_neg hnum, if_neg hbr, if_pos trivial] at hres
      have hres2 : (perm.map (fun i => (only_items_with_count_one
          (List.range (edgesIdMax ae + 1) ++ pos)).getD i 0)).take num = res :=
        Except.ok.inj hres
      intro x hx
      rw [← hres2] at hx
      have hx2 := List.mem_of_mem_take hx
      rw [List.mem_map] at hx2
      obtain ⟨t2, ht2, hxt⟩ := hx2
      have hlt := hperm t2 ht2
      rw [List.getD_eq_getElem _ 0 hlt] at hxt
      have hmem : x ∈ only_items_with_count_one
          (List.range (edgesIdMax ae + 1) ++ pos) := hxt ▸ List.getElem_mem hlt
      have hsub : ∀ x2 ∈ pos, x2 ∈ List.range (edgesIdMax ae + 1) := by
        intro x2 hx2
        rw [List.mem_range]
        have := hpos x2 hx2
        omega
      exact (mem_only_count_one_append hsub x hmem).2

/-- C4 counterexample: the call takes the exact branch
(`1 edge / 1 requested = 1 ≤ 100`), randomization is off, and the fixed
deterministic pick `[id_max]` is returned without any filtering — here the
maximum item id `5` *is* in the supplied positive set. -/
theorem neg_random_det_exact_returns_positive :
    (get_negative_edges_random [] [] [5] [(0, 5)] 1 false).toOption =
      some [5] ∧
    ¬ (((([(0, 5)] : List (Nat × Nat)).length : ℚ) / ((1 : Nat) : ℚ)) > 100) ∧
    5 ∈ ([5] : List Nat) := by
  decide

/-- Witness for the amended C4: complement of `{5}` in `0..5` is
`[0, 1, 2, 3, 4]`; the permuted draw returns `[4]`, and `4` is not a
positive. -/
theorem neg_random_exact_branch_disjoint_witness : 4 ∉ ([5] : List Nat) :=
  neg_random_exact_branch_disjoint [] [4, 3, 2, 1, 0] [5] [(0, 5)] 1 [4]
    (by decide) (by decide) (by decide) (by rfl) 4 (by decide)

/-- C5 (amended): whenever `get_negative_edges_random` returns (with the
randint draw sized to the request, as `t.randint(size=(m,))` guarantees),
the returned count never exceeds the requested count; but requesting `0`
negatives always raises (`ZeroDivisionError` from
`all_edges.shape[1] / num_negative_edges`, or the empty-tensor `max`
reduction) instead of returning an empty result. -/
theorem neg_random_count_bound :
    (∀ (randints perm pos : List Nat) (ae : List (Nat × Nat)) (num : Nat)
      (b : Bool) (res : List Nat), randints.length = num →
      get_negative_edges_random randints perm pos ae num b = Except.ok res →
      res.length ≤ num) ∧
    (∀ (randints perm pos : List Nat) (ae : List (Nat × Nat)) (b : Bool),
      (get_negative_edges_random randints perm pos ae 0 b).isOk = false) := by
  constructor
  · intro randints perm pos ae num b res hlen hres
    simp only [get_negative_edges_random] at hres
    by_cases hemp : ae.isEmpty
    · rw [if_pos hemp] at hres
      exact Except.noConfusion hres
    · rw [if_neg hemp] at hres
      by_cases hnum : num = 0
      · rw [if_pos hnum] at hres
        exact Except.noConfusion hres
      · rw [if_neg hnum] at hres
        by_cases hratio : (((ae.length : ℚ)) / ((num : ℚ))) > 100
        · rw [if_pos hratio] at hres
          cases b with
          | true =>
            rw [if_pos rfl] at hres
            rw [← Except.ok.inj hres, ← hlen]
          | false =>
            rw [if_neg (by simp)] at hres
            rw [← Except.ok.inj hres]
            simp
            omega
        · rw [if_neg hratio] at hres
          cases b with
          | true =>
            rw [if_pos rfl] at hres
            rw [← Except.ok.inj hres]
            exact le_trans (List.length_take_le _ _) le_rfl
          | false =>
            rw [if_neg (by simp)] at hres
            rw [← Except.ok.inj hres]
            simp
            omega
  · intro randints perm pos ae b
    simp only [get_negative_edges_random]
    by_cases hemp : ae.isEmpty
    · rw [if_pos hemp]
      rfl
    · rw [if_neg hemp, if_pos trivial]
      rfl

/-- C5 counterexample: requesting `0` negatives raises
(`shape[1] / 0` is a `ZeroDivisionError`) rather than returning an empty
result. -/
theorem neg_random_zero_request_raises :
    (get_negative_edges_random [] [] [] [(0, 1)] 0 true).isOk = false := by
  decide

/-- Witness for the amended C5: a succeeding call returns at most the
requested count, and a `0`-request fails. -/
theorem neg_random_count_bound_witness :
    ([0] : List Nat).length ≤ 1 ∧
    (get_negative_edges_random [] [] [] [(0, 1)] 0 false).isOk = false :=
  ⟨neg_random_count_bound.1 [3] [0] [5] [(0, 5)] 1 true [0] (by decide)
      (by rfl),
    neg_random_count_bound.2 [] [] [] [(0, 1)] false⟩

/-! ## Helper lemmas: argmin/argmax indices and remap bounds -/

theorem foldl_min_mem : ∀ (l : List Nat) (a : Nat), l.foldl Nat.min a ∈ a :: l := by
  intro l
  induction l with
  | nil =>
    intro a
    exact List.mem_cons_self a []
  | cons b t ih =>
    intro a
    rw [List.foldl_cons]
    rcases List.mem_cons.mp (ih (Nat.min a b)) with h2 | h2
    · rw [h2]
      have hchoice : Nat.min a b = a ∨ Nat.min a b = b := by
        rcases Nat.le_total a b with h | h
        · exact Or.inl (Nat.min_eq_left h)
        · exact Or.inr (Nat.min_eq_right h)
      rcases hchoice with hm | hm
      · rw [hm]
        exact List.mem_cons_self a (b :: t)
      · rw [hm]
        exact List.mem_cons_of_mem a (List.mem_cons_self b t)
    · exact List.mem_cons_of_mem a (List.mem_cons_of_mem b h2)

theorem foldl_max_mem : ∀ (l : List Nat) (a : Nat), l.foldl Nat.max a ∈ a :: l := by
  intro l
  induction l with
  | nil =>
    intro a
    exact List.mem_cons_self a []
  | cons b t ih =>
    intro a
    rw [List.foldl_cons]
    rcases List.mem_cons.mp (ih (Nat.max a b)) with h2 | h2
    · rw [h2]
      have hchoice : Nat.max a b = a ∨ Nat.max a b = b := by
        rcases Nat.le_total a b with h | h
        · exact Or.inr (Nat.max_eq_right h)
        · exact Or.inl (Nat.max_eq_left h)
      rcases hchoice with hm | hm
      · rw [hm]
        exact List.mem_cons_self a (b :: t)
      · rw [hm]
        exact List.mem_cons_of_mem a (List.mem_cons_self b t)
    · exact List.mem_cons_of_mem a (List.mem_cons_of_mem b h2)

theorem minIndex_lt_length {l : List Nat} (hl : l ≠ []) : minIndex l < l.length := by
  rw [minIndex]
  apply List.indexOf_lt_length.mpr
  cases l with
  | nil => exact absurd rfl hl
  | cons a t =>
    show (a :: t).foldl Nat.min ((a :: t).headD 0) ∈ a :: t
    rw [List.headD_cons, List.foldl_cons, show Nat.min a a = a from Nat.min_eq_left (Nat.le_refl a)]
    exact foldl_min_mem t a

theorem maxIndex_lt_length {l : List Nat} (hl : l ≠ []) : maxIndex l < l.length := by
  rw [maxIndex]
  apply List.indexOf_lt_length.mpr
  cases l with
  | nil => exact absurd rfl hl
  | cons a t =>
    show (a :: t).foldl Nat.max ((a :: t).headD 0) ∈ a :: t
    rw [List.headD_cons, List.foldl_cons, show Nat.max a a = a from Nat.max_eq_left (Nat.le_refl a)]
    exact foldl_max_mem t a

/-- Remapping any edge list against the buckets of a covering `touched`
list yields indices strictly below the bucket lengths, in the forward and
in the row-swapped orientation. -/
theorem remap_bounds_all {X touched : List (Nat × Nat)}
    (hX : ∀ e ∈ X, e ∈ touched) :
    (∀ e2 ∈ remap_edges_to_start_from_zero X
        (uniqueSorted (touched.map Prod.fst))
        (uniqueSorted (touched.map Prod.snd)),
      e2.1 < (uniqueSorted (touched.map Prod.fst)).length ∧
      e2.2 < (uniqueSorted (touched.map Prod.snd)).length) ∧
    (∀ e2 ∈ (remap_edges_to_start_from_zero X
        (uniqueSorted (touched.map Prod.fst))
        (uniqueSorted (touched.map Prod.snd))).map Prod.swap,
      e2.1 < (uniqueSorted (touched.map Prod.snd)).length ∧
      e2.2 < (uniqueSorted (touched.map Prod.fst)).length) := by
  constructor
  · intro e2 he2
    rw [remap_edges_to_start_from_zero, List.mem_map] at he2
    obtain ⟨e, he, rfl⟩ := he2
    exact ⟨bucketize_lt_of_mem (List.mem_map_of_mem Prod.fst (hX e he)),
      bucketize_lt_of_mem (List.mem_map_of_mem Prod.snd (hX e he))⟩
  · intro e2 he2
    rw [List.mem_map] at he2
    obtain ⟨e3, he3, rfl⟩ := he2
    rw [remap_edges_to_start_from_zero, List.mem_map] at he3
    obtain ⟨e, he, rfl⟩ := he3
    exact ⟨bucketize_lt_of_mem (List.mem_map_of_mem Prod.snd (hX e he)),
      bucketize_lt_of_mem (List.mem_map_of_mem Prod.fst (hX e he))⟩

/-- C10: for every successful `__getitem__` call (with in-range positive
index draws, as `t.randint(high=len(positives))` guarantees), every
remapped index in the emitted structural `edge_index` and scoring
`edge_label_index` — and in their row-swapped reverse counterparts — is in
range for the emitted feature tensors: user-side entries are below the
user feature row count and item-side entries below the item feature row
count. -/
theorem getitem_remapped_indices_in_range (ds : GraphDataset) (draws : Draws)
    (idx : Nat) (out : ItemOut)
    (hdraw : ∀ d ∈ draws.posDraw, d < (ds.users idx).length)
    (hres : getitem ds draws idx = Except.ok out) :
    (∀ e ∈ out.edge_index,
      e.1 < out.user_feature_rows ∧ e.2 < out.article_feature_rows) ∧
    (∀ e ∈ out.edge_label_index,
      e.1 < out.user_feature_rows ∧ e.2 < out.article_feature_rows) ∧
    (∀ e ∈ out.rev_edge_index,
      e.1 < out.article_feature_rows ∧ e.2 < out.user_feature_rows) ∧
    (∀ e ∈ out.rev_edge_label_index,
      e.1 < out.article_feature_rows ∧ e.2 < out.user_feature_rows) := by
  simp only [getitem] at hres
  split at hres
  · exact Except.noConfusion hres
  · next hposlen =>
    split at hres
    · exact Except.noConfusion hres
    · next negs heq =>
      rw [Except.ok.injEq] at hres
      subst hres
      have hne : ds.users idx ≠ [] := by
        intro hcon
        exact hposlen (by rw [hcon]; rfl)
      refine ⟨(remap_bounds_all ?h1).1, (remap_bounds_all ?h2).1,
        (remap_bounds_all ?h1).2, (remap_bounds_all ?h2).2⟩
      case h1 =>
        intro f hf
        rcases List.mem_append.mp hf with hf2 | hf2
        · exact List.mem_append_left _ (List.mem_append_left _ hf2)
        · exact List.mem_append_right _ hf2
      case h2 =>
        intro f hf
        rcases List.mem_append.mp hf with hf2 | hf2
        · rw [create_edges_from_target_indices, List.mem_map] at hf2
          obtain ⟨x, hx, rfl⟩ := hf2
          rw [List.mem_map] at hx
          obtain ⟨d, hd, rfl⟩ := hx
          have hdlt : d < (ds.users idx).length := by
            by_cases hrand : ds.randomization = true
            · rw [if_pos hrand] at hd
              exact hdraw d (List.mem_of_mem_take hd)
            · rw [if_neg hrand] at hd
              rcases List.mem_cons.mp hd with rfl | hd2
              · exact minIndex_lt_length hne
              · rcases List.mem_cons.mp hd2 with rfl | hd3
                · exact maxIndex_lt_length hne
                · cases hd3
          have hxm : (ds.users idx).getD d 0 ∈ ds.users idx := by
            rw [List.getD_eq_getElem _ 0 hdlt]
            exact List.getElem_mem hdlt
          apply List.mem_append_left
          apply List.mem_append_left
          rw [create_edges_from_target_indices, List.mem_map]
          exact ⟨(ds.users idx).getD d 0, hxm, rfl⟩
        · exact List.mem_append_left _ (List.mem_append_right _ hf2)

/-- Witness for C10 on the concrete training-mode example `dsW`: the single
structural edge remaps to `(0, 0)` and both feature tensors have one row. -/
theorem getitem_remapped_indices_in_range_witness :
    (0 : Nat) < outW.user_feature_rows ∧ (0 : Nat) < outW.article_feature_rows :=
  (getitem_remapped_indices_in_range dsW draws0 0 outW (by decide) (by rfl)).1
    (0, 0) (by decide)

/-- C3 (amended): in evaluation mode with matchers supplied, provided every
positive item id of the anchor user occurs among the matcher candidates,
every emitted negative scoring edge targets an item id that is among the
candidates and is not among the anchor's positive item ids.  (Without the
containment hypothesis the claim fails: a positive id absent from the
candidates appears exactly once in the union and is emitted as a
negative.) -/
theorem getitem_eval_negatives_in_candidates (ds : GraphDataset)
    (draws : Draws) (idx : Nat) (ms : List (Nat → List Nat)) (out : ItemOut)
    (htrain : ds.train = false) (hm : ds.matchers = some ms)
    (hsub : ∀ x ∈ ds.users idx,
      x ∈ uniqueSorted ((ms.map (fun m => m idx)).flatten))
    (hres : getitem ds draws idx = Except.ok out) :
    ∀ e ∈ out.sampled_negative_article_edges,
      e.2 ∈ uniqueSorted ((ms.map (fun m => m idx)).flatten) ∧
        e.2 ∉ ds.users idx := by
  simp only [getitem] at hres
  split at hres
  · exact Except.noConfusion hres
  · next hposlen =>
    split at hres
    · exact Except.noConfusion hres
    · next negs heq =>
      rw [Except.ok.injEq] at hres
      subst hres
      rw [htrain, hm] at heq
      simp only [Bool.false_eq_true, if_false] at heq
      rw [Except.ok.injEq] at heq
      subst heq
      intro e he
      dsimp only at he
      rw [create_edges_from_target_indices, List.mem_map] at he
      obtain ⟨x, hx, rfl⟩ := he
      exact mem_only_count_one_append hsub x hx

/-- C3 counterexample: the single matcher proposes only item `5` while
user `0`'s positive list is `[7]`; id `7` is not among the candidates, so
it survives the "appears exactly once after union" filter and is emitted
as the negative scoring edge `(0, 7)` — an id outside the candidate set
(and a positive of the anchor). -/
theorem getitem_eval_negative_not_in_candidates :
    (getitem dsC3 draws0 0).toOption.map
      (fun o => o.sampled_negative_article_edges) = some [(0, 5), (0, 7)] ∧
    7 ∈ dsC3.users 0 ∧ 7 ∉ candC3 := by
  decide

/-- Witness for the amended C3 on `dsE` (candidates `[5, 7]` ⊇ positives
`[7]`): the emitted negative `(0, 5)` targets a candidate that is not a
positive. -/
theorem getitem_eval_negatives_in_candidates_witness :
    5 ∈ uniqueSorted ((([fun _ => [5, 7]] :
      List (Nat → List Nat)).map (fun m => m 0)).flatten) ∧
    5 ∉ dsE.users 0 :=
  getitem_eval_negatives_in_candidates dsE draws0 0 [fun _ => [5, 7]] outE
    rfl rfl (by decide) (by rfl) (0, 5) (by decide)
